import Mathlib

/-!
Verification of the `db` package (MySQL access layer for Cloud Functions).

The development shallowly embeds the package's pure logic:

* driver values (`interface` values scanned from a cursor) become `GoVal`;
* the connection-pool slots guarded by `sync.OnceValue` become an explicit
  state machine `DBState` with operations `readDBOnce` / `writeDBOnce` /
  `getDB` / `closeDB`;
* the configuration merge of `initDB` becomes `initDBConfig`;
* `GenerateQueryString` becomes `generateQueryString` over `List Char`;
* `setFieldFromInterface`, `typeConvertor` and `ScanStruct` become
  `setFieldFromInterface`, `typeConvertor` and `scanStruct`, with Go panics
  modelled as `Except.error`.

External collaborators (the MySQL driver, `strcase`, `spf13/cast`, `fmt`)
are modelled at their interface boundary on the value domain the package
actually exercises.
-/

deriving instance DecidableEq for Except

namespace GoDB

/-- The single-quote character, written via its code point. -/
def sq : String := String.mk [Char.ofNat 39]

/-- Runtime values the driver hands to the package (Go `any` values).
`vFloat` carries a rational standing for a `float64`; `vTime` is an opaque
timestamp; `vBytes` is a `[]byte` as a list of byte values. -/
inductive GoVal where
  | vNil
  | vBool (b : Bool)
  | vInt (n : Int)
  | vInt64 (n : Int)
  | vFloat (q : Rat)
  | vString (s : String)
  | vBytes (bs : List Nat)
  | vTime (t : Int)
deriving DecidableEq

/-- Go runtime types of the modelled values (for `reflect` convertibility). -/
inductive GoType where
  | tNil
  | tBool
  | tInt
  | tInt64
  | tFloat64
  | tString
  | tBytes
  | tTime
deriving DecidableEq

/-- `reflect.TypeOf` on the modelled value domain. -/
def GoVal.typeOf : GoVal → GoType
  | .vNil => .tNil
  | .vBool _ => .tBool
  | .vInt _ => .tInt
  | .vInt64 _ => .tInt64
  | .vFloat _ => .tFloat64
  | .vString _ => .tString
  | .vBytes _ => .tBytes
  | .vTime _ => .tTime

/-- Go `string(bs)` for a byte slice (ASCII domain). -/
def stringOfBytes (bs : List Nat) : String :=
  String.mk (bs.map Char.ofNat)

/-- `fmt.Sprintf "%v"` on the modelled value domain (the `fmt` package is an
external collaborator; byte slices print as a bracketed decimal list, which
is what `%v` does for `[]byte`). -/
def govalSprint : GoVal → String
  | .vNil => "<nil>"
  | .vBool b => if b then "true" else "false"
  | .vInt n => toString n
  | .vInt64 n => toString n
  | .vFloat q => toString q
  | .vString s => s
  | .vBytes bs => "[" ++ String.intercalate " " (bs.map toString) ++ "]"
  | .vTime t => toString t

/-! ## GenerateQueryString (src/db.go lines 255-270)

Go strings are embedded as `List Char`.  `strings.Replace(query, "?", new, 1)`
replaces the first occurrence of the one-character pattern `?`. -/

/-- The representation substituted for one placeholder: the `switch` of
`GenerateQueryString`.  Only the exact Go types `bool`, `int`, `float64` are
inserted unquoted, `nil` becomes `NULL`, everything else is wrapped in
single quotes. -/
def renderArg : GoVal → String
  | .vBool b => govalSprint (.vBool b)
  | .vInt n => govalSprint (.vInt n)
  | .vFloat q => govalSprint (.vFloat q)
  | .vNil => "NULL"
  | v => sq ++ govalSprint v ++ sq

/-- `strings.Replace(query, "?", r, 1)` on the character-list embedding. -/
def replaceFirstQ : List Char → List Char → List Char
  | [], _ => []
  | c :: cs, r => if c = '?' then r ++ cs else c :: replaceFirstQ cs r

/-- `GenerateQueryString`: recursively substitute the first `?` of the current
query by the first argument's representation, then recurse on the rest. -/
def generateQueryString (query : List Char) : List GoVal → List Char
  | [] => query
  | a :: rest => generateQueryString (replaceFirstQ query (renderArg a).data) rest

/-- Fuelled variant of `generateQueryString`: returns `none` once the fuel is
exhausted with arguments still pending.  Used to express that the recursion
consumes exactly one argument per step. -/
def generateQueryStringFuel : Nat → List Char → List GoVal → Option (List Char)
  | _, query, [] => some query
  | 0, _, _ :: _ => none
  | fuel + 1, query, a :: rest =>
      generateQueryStringFuel fuel (replaceFirstQ query (renderArg a).data) rest

/-- A value the spec sentence calls numeric. -/
def isNumericVal : GoVal → Bool
  | .vInt _ => true
  | .vInt64 _ => true
  | .vFloat _ => true
  | _ => false

/-- The Go types unquoted by `GenerateQueryString`'s `switch`. -/
def isUnquotedCase : GoVal → Bool
  | .vBool _ => true
  | .vInt _ => true
  | .vFloat _ => true
  | .vNil => true
  | _ => false

/-! ## Connection pool slots (src/db.go lines 20-24, 154-162, 244-253)

`sync.OnceValue(func() *sql.DB { return initDB(...) })` caches the first
result forever; it has no reset operation.  The state machine tracks, per
slot, the cached handle (`none` = the once-cell has not run), a counter of
`initDB` invocations (each invocation performs credential resolution, tunnel
registration, `sql.Open`, `Ping` and the pool-limit calls), a fresh-handle
supply, and the set of handles on which `Close` has been called.
`(*sql.DB).Close` is idempotent and error-free absent driver faults. -/

structure DBState where
  readSlot : Option Nat
  writeSlot : Option Nat
  nextHandle : Nat
  readInits : Nat
  writeInits : Nat
  closedHandles : List Nat
deriving DecidableEq

/-- The state of a freshly started process: both once-cells unevaluated. -/
def initState : DBState :=
  { readSlot := none, writeSlot := none, nextHandle := 0
    readInits := 0, writeInits := 0, closedHandles := [] }

/-- `readDBOnce()`: evaluate the once-cell for the read slot. -/
def readDBOnce (s : DBState) : DBState × Nat :=
  match s.readSlot with
  | some h => (s, h)
  | none =>
      ({ s with
          readSlot := some s.nextHandle
          nextHandle := s.nextHandle + 1
          readInits := s.readInits + 1 }, s.nextHandle)

/-- `writeDBOnce()`: evaluate the once-cell for the write slot. -/
def writeDBOnce (s : DBState) : DBState × Nat :=
  match s.writeSlot with
  | some h => (s, h)
  | none =>
      ({ s with
          writeSlot := some s.nextHandle
          nextHandle := s.nextHandle + 1
          writeInits := s.writeInits + 1 }, s.nextHandle)

/-- `GetDB(readOnly ...bool)`: write slot iff the first variadic argument is
explicitly `false`, otherwise the read slot. -/
def getDB (readOnly : List Bool) (s : DBState) : DBState × Nat :=
  if readOnly.length > 0 && !(readOnly.headD true) then writeDBOnce s
  else readDBOnce s

/-- `(*sql.DB).Close` on handle `h`: records the close; returns no error. -/
def sqlClose (s : DBState) (h : Nat) : DBState × Option String :=
  ({ s with closedHandles := h :: s.closedHandles }, none)

/-- `CloseDB()`: `readDBOnce().Close()` then `writeDBOnce().Close()`, each
with an early error return.  Note it calls the once-cells, forcing
initialization of any slot that was never used, and never clears them. -/
def closeDB (s : DBState) : DBState × Option String :=
  let r := readDBOnce s
  let c1 := sqlClose r.1 r.2
  match c1.2 with
  | some e => (c1.1, some e)
  | none =>
      let w := writeDBOnce c1.1
      let c2 := sqlClose w.1 w.2
      match c2.2 with
      | some e => (c2.1, some e)
      | none => (c2.1, none)

/-- One sequential interleaving of `GetDB` calls (`true` = read slot,
`false` = write slot), collecting the returned handles. -/
def runCalls : List Bool → DBState → DBState × List Nat
  | [], s => (s, [])
  | c :: cs, s =>
      let r := getDB [c] s
      let rest := runCalls cs r.1
      (rest.1, r.2 :: rest.2)

/-! ## initDB configuration merge (src/db.go lines 164-204)

The environment variables read by `initDB` are embedded as an `Env` record
(`getEnv` is a pure lookup).  `registerDial` is an external side effect that
either succeeds or panics; the configuration produced by `initDB` is modelled
by `initDBConfig`. -/

structure Env where
  databaseName : String
  databaseMode : String
  readUsername : String
  readPassword : String
  readHost : String
  readInstances : String
  username : String
  password : String
  host : String
  instances : String
deriving DecidableEq

structure MySQLConfig where
  dbName : String
  net : String
  user : String
  passwd : String
  addr : String
  parseTime : Bool
  allowNativePasswords : Bool
deriving DecidableEq

/-- The `mysql.Config` literal at the top of `initDB` (unset fields are the
Go zero value `""`). -/
def baseConfig (env : Env) : MySQLConfig :=
  { dbName := env.databaseName, net := env.databaseMode, user := "", passwd := "",
    addr := "", parseTime := true, allowNativePasswords := true }

/-- The `if readOnly` block: read credentials, then the Cloud SQL connector
override when `DATABASE_READ_INSTANCES` is configured. -/
def readPhase (env : Env) (cfg : MySQLConfig) : MySQLConfig :=
  let cfg1 := { cfg with user := env.readUsername, passwd := env.readPassword, addr := env.readHost }
  if env.readInstances ≠ "" then
    { cfg1 with net := "cloudsqlconn_read", addr := "localhost:3306" }
  else cfg1

/-- The fallback block: when any of user/password/address is empty at this
point, substitute the write credentials, then the write-side Cloud SQL
connector override when `DATABASE_INSTANCES` is configured. -/
def fallbackPhase (env : Env) (cfg : MySQLConfig) : MySQLConfig :=
  if cfg.user = "" ∨ cfg.passwd = "" ∨ cfg.addr = "" then
    let cfg1 := { cfg with user := env.username, passwd := env.password, addr := env.host }
    if env.instances ≠ "" then
      { cfg1 with net := "cloudsqlconn_write", addr := "localhost:3306" }
    else cfg1
  else cfg

/-- The configuration `initDB` passes to `sql.Open` (the subsequent open,
ping and pool-limit calls are driver effects on this configuration). -/
def initDBConfig (readOnly : Bool) (env : Env) : MySQLConfig :=
  fallbackPhase env (if readOnly then readPhase env (baseConfig env) else baseConfig env)

/-- The condition under which the read-slot configuration actually falls back
to write credentials: the check runs after the connector override, so a
configured `DATABASE_READ_INSTANCES` makes the address `"localhost:3306"`,
never empty. -/
def readFallbackCond (env : Env) : Bool :=
  (env.readUsername = "") || (env.readPassword = "") ||
    ((env.readInstances = "") && (env.readHost = ""))

/-! ## Field coercion (src/db.go lines 370-421 and 698-732)

`setFieldFromInterface` coerces a scanned driver value into a non-nullable
(plain scalar) destination field, the only destinations the repository passes
to it; its `FieldType` argument is therefore given by the destination's
`GoKind`.  Go `reflect` convertibility on the modelled types is
`convertibleTo`, and `reflect.Value.Convert` is `convertVal`. -/

/-- Declared scalar kinds of destination fields. -/
inductive GoKind where
  | kBool
  | kInt
  | kInt64
  | kFloat64
  | kString
  | kTime
deriving DecidableEq

/-- Truncation toward zero, Go's float-to-integer conversion. -/
def ratTrunc (q : Rat) : Int :=
  if 0 ≤ q then q.floor else q.ceil

/-- `reflect` `ConvertibleTo` between the modelled runtime types and the
declared kinds: numeric types interconvert; `string` and `[]byte`
interconvert (with `string` as the only modelled slice-free target);
`bool` and `time.Time` convert only to themselves; `string` does not
convert to a numeric type. -/
def convertibleTo : GoType → GoKind → Bool
  | .tBool, .kBool => true
  | .tInt, .kInt => true
  | .tInt, .kInt64 => true
  | .tInt, .kFloat64 => true
  | .tInt64, .kInt => true
  | .tInt64, .kInt64 => true
  | .tInt64, .kFloat64 => true
  | .tFloat64, .kInt => true
  | .tFloat64, .kInt64 => true
  | .tFloat64, .kFloat64 => true
  | .tInt, .kString => true
  | .tInt64, .kString => true
  | .tString, .kString => true
  | .tBytes, .kString => true
  | .tTime, .kTime => true
  | _, _ => false

/-- `reflect.Value.Convert` on the modelled domain (Go semantics: float to
integer truncates toward zero; integer to string yields the code point's
UTF-8, modelled for the ASCII range). -/
def convertVal : GoVal → GoKind → Option GoVal
  | .vBool b, .kBool => some (.vBool b)
  | .vInt n, .kInt => some (.vInt n)
  | .vInt n, .kInt64 => some (.vInt64 n)
  | .vInt n, .kFloat64 => some (.vFloat n)
  | .vInt64 n, .kInt => some (.vInt n)
  | .vInt64 n, .kInt64 => some (.vInt64 n)
  | .vInt64 n, .kFloat64 => some (.vFloat n)
  | .vFloat q, .kInt => some (.vInt (ratTrunc q))
  | .vFloat q, .kInt64 => some (.vInt64 (ratTrunc q))
  | .vFloat q, .kFloat64 => some (.vFloat q)
  | .vInt n, .kString => some (.vString (String.mk [Char.ofNat n.toNat]))
  | .vInt64 n, .kString => some (.vString (String.mk [Char.ofNat n.toNat]))
  | .vString s, .kString => some (.vString s)
  | .vBytes bs, .kString => some (.vString (stringOfBytes bs))
  | .vTime t, .kTime => some (.vTime t)
  | _, _ => none

/-- `setFieldFromInterface` (first variant, lines 370-421) on a non-nullable
destination of kind `k`: `time.Time` destinations accept exactly a
`time.Time` value; `string` destinations convert byte slices directly and
`fmt.Sprint` everything else; `bool` destinations accept native booleans,
`int64`/`int` truthiness, and a single-byte `[]byte` compared against the
byte `'1'` (code 49); every other case falls through to the generic
`reflect` conversion.  A `nil` source reaching the generic case makes the Go
code dereference a nil `reflect.Type` (a panic), modelled as an error. -/
def setFieldFromInterface (k : GoKind) (val : GoVal) : Except String GoVal :=
  match k with
  | .kTime =>
      match val with
      | .vTime t => .ok (.vTime t)
      | _ => .error "not a time.Time"
  | .kString =>
      match val with
      | .vBytes bs => .ok (.vString (stringOfBytes bs))
      | v => .ok (.vString (govalSprint v))
  | .kBool =>
      match val with
      | .vBool b => .ok (.vBool b)
      | .vInt64 n => .ok (.vBool (decide (n ≠ 0)))
      | .vInt n => .ok (.vBool (decide (n ≠ 0)))
      | .vBytes bs =>
          match bs with
          | [b] => .ok (.vBool (decide (b = 49)))
          | _ =>
              match convertVal val .kBool with
              | some w => .ok w
              | none => .error "type mismatch"
      | _ =>
          match convertVal val .kBool with
          | some w => .ok w
          | none => .error "type mismatch"
  | _ =>
      match convertVal val k with
      | some w => .ok w
      | none => .error "type mismatch"

/-- `true` iff the coercion succeeded. -/
def isOkE (e : Except String GoVal) : Bool :=
  match e with
  | .ok _ => true
  | .error _ => false

/-! ### The `spf13/cast` library (external collaborator)

Modelled at its documented behaviour on the values the claims exercise:
`cast.ToString` renders scalars, `cast.ToInt` parses a decimal string (and
yields `0` on failure), `cast.ToBool` accepts `strconv.ParseBool` forms and
numeric truthiness, `cast.ToFloat64` parses integral decimal strings in the
modelled domain, `cast.ToTime` passes temporal values through. -/

def castToString : GoVal → String
  | .vString s => s
  | .vBytes bs => stringOfBytes bs
  | .vInt n => toString n
  | .vInt64 n => toString n
  | .vFloat q => toString q
  | .vBool b => if b then "true" else "false"
  | .vNil => ""
  | .vTime t => toString t

/-- Decimal digit accumulation for the `strconv` model. -/
def parseDigitsAux : Nat → List Char → Option Nat
  | acc, [] => some acc
  | acc, c :: cs =>
      if c.isDigit then parseDigitsAux (acc * 10 + (c.toNat - 48)) cs else none

def parseDigits : List Char → Option Nat
  | [] => none
  | cs => parseDigitsAux 0 cs

/-- `strconv.ParseInt` on plain decimal literals (the domain `cast.ToInt`
exercises here). -/
def parseDec (s : String) : Option Int :=
  match s.data with
  | '-' :: rest => (parseDigits rest).map (fun n => -(n : Int))
  | cs => (parseDigits cs).map (fun n => (n : Int))

def castToInt (s : String) : Int :=
  (parseDec s).getD 0

def castToFloat (s : String) : Rat :=
  match parseDec s with
  | some n => (n : Rat)
  | none => 0

def castToBool : GoVal → Bool
  | .vBool b => b
  | .vInt n => decide (n ≠ 0)
  | .vInt64 n => decide (n ≠ 0)
  | .vString s =>
      (s = "1") || (s = "t") || (s = "T") || (s = "true") || (s = "TRUE") || (s = "True")
  | _ => false

def castToTime : GoVal → GoVal
  | .vTime t => .vTime t
  | _ => .vTime 0

/-- The declared target type handed to `typeConvertor`: an optional pointer
wrapper around a scalar kind (`Map` and unsigned targets are outside the
modelled value domain; no claim exercises them). -/
structure TCTarget where
  isPtr : Bool
  kind : GoKind
deriving DecidableEq

/-- `typeConvertor` (second variant, lines 698-732): `nil` target passes the
value through; a pointer target short-circuits an empty-string source to
`nil` and otherwise converts at the element kind; integer kinds use
`cast.ToInt(cast.ToString(value))`, float kinds
`cast.ToFloat64(cast.ToString(value))`, and so on. -/
def typeConvertor (value : GoVal) (targetType : Option TCTarget) : GoVal :=
  match targetType with
  | none => value
  | some t =>
      if t.isPtr ∧ value = .vString "" then .vNil
      else
        match t.kind with
        | .kBool => .vBool (castToBool value)
        | .kInt => .vInt (castToInt (castToString value))
        | .kInt64 => .vInt (castToInt (castToString value))
        | .kFloat64 => .vFloat (castToFloat (castToString value))
        | .kString => .vString (castToString value)
        | .kTime => castToTime value

/-! ## ScanStruct (src/db.go lines 290-353)

A target record type is a list of `FieldDesc` (field identifier, `json` tag,
field type); a cursor position is the column-name list plus the outcome of
`row.Scan` — either a driver/cursor fault or the positional driver values.
`handleError` panics on a non-nil error; panics are `Except.error`. -/

/-- The `reflect` shape of a declared field, as inspected by
`isNullableType`: a plain scalar, a pointer, an interface, a `sql.Null`
wrapper, a slice or a map. -/
inductive FieldType where
  | plain (k : GoKind)
  | ptrTo (k : GoKind)
  | anyType
  | sqlNull (k : GoKind)
  | sliceType
  | mapType
deriving DecidableEq

/-- `isNullableType`: pointers, interfaces, slices, maps and `sql.Null`
types can represent SQL absence. -/
def isNullableType : FieldType → Bool
  | .plain _ => false
  | _ => true

structure FieldDesc where
  name : String
  jsonTag : String
  ftype : FieldType
deriving DecidableEq

/-- `strcase.ToSnake` (external collaborator), modelled on plain ASCII
identifiers: lower-case every letter, inserting an underscore before each
non-leading upper-case letter. -/
def toSnakeAux : Bool → List Char → List Char
  | _, [] => []
  | first, c :: cs =>
      if c.isUpper then
        (if first then [c.toLower] else ['_', c.toLower]) ++ toSnakeAux false cs
      else c :: toSnakeAux false cs

def toSnake (s : String) : String :=
  String.mk (toSnakeAux true s.data)

/-- Column-name resolution: the `json` tag when present, else the
snake-cased field identifier. -/
def resolveName (fd : FieldDesc) : String :=
  if fd.jsonTag ≠ "" then fd.jsonTag else toSnake fd.name

/-- `slices.Index`: first index of `x`, or `none`. -/
def slicesIndex : List String → String → Option Nat
  | [], _ => none
  | c :: cs, x => if c = x then some 0 else (slicesIndex cs x).map (· + 1)

/-- One entry of the `scans` slice: either the neutral `new(any)` holder or
the address of struct field `i` (a nullable destination bound directly). -/
inductive ScanTarget where
  | holder
  | fieldPtr (i : Nat)
deriving DecidableEq

/-- The value stored in a materialized field: a plain scalar, or a nullable
destination (`none` = SQL NULL / still nil). -/
inductive FieldVal where
  | direct (v : GoVal)
  | boxed (v : Option GoVal)
deriving DecidableEq

/-- The Go zero value of a scalar kind. -/
def zeroOfKind : GoKind → GoVal
  | .kBool => .vBool false
  | .kInt => .vInt 0
  | .kInt64 => .vInt64 0
  | .kFloat64 => .vFloat 0
  | .kString => .vString ""
  | .kTime => .vTime 0

/-- The zero value of a declared field. -/
def zeroOf : FieldType → FieldVal
  | .plain k => .direct (zeroOfKind k)
  | _ => .boxed none

/-- What a directly bound nullable destination holds after a successful
scan of driver value `v`. -/
def boxVal : GoVal → FieldVal
  | .vNil => .boxed none
  | v => .boxed (some v)

/-- The field-binding loop of `ScanStruct`: walk the declared fields with
their index `i`, resolve each column name, and either bind the scan slot
directly (nullable fields, overwriting the holder) or record the pair in
`notNullFields`. -/
def bindFields (cols : List String) :
    List FieldDesc → Nat → List ScanTarget → List (Nat × Nat) →
    List ScanTarget × List (Nat × Nat)
  | [], _, scans, acc => (scans, acc)
  | fd :: rest, i, scans, acc =>
      match slicesIndex cols (resolveName fd) with
      | none => bindFields cols rest (i + 1) scans acc
      | some idx =>
          if isNullableType fd.ftype then
            bindFields cols rest (i + 1) (scans.set idx (.fieldPtr i)) acc
          else
            bindFields cols rest (i + 1) scans (acc ++ [(i, idx)])

/-- After a successful `row.Scan`, every directly bound field received its
column's driver value; holders received the raw value (read later by the
staged pass). -/
def applyDirect : List ScanTarget → List GoVal → List FieldVal → List FieldVal
  | .fieldPtr i :: ts, v :: vs, st => applyDirect ts vs (st.set i (boxVal v))
  | .holder :: ts, _ :: vs, st => applyDirect ts vs st
  | _, _, st => st

/-- The default descriptor (only used for out-of-range `getD` lookups that
never occur on well-formed inputs). -/
def dfltField : FieldDesc := { name := "", jsonTag := "", ftype := .anyType }

/-- The staged pass of `ScanStruct`: for each recorded `(structIdx, scanIdx)`
pair, read the holder back (`scans[m.scanIdx].(*any)` — a Go type-assertion
panic if the slot was overwritten by a direct field binding), skip `nil`
values, coerce with `setFieldFromInterface` and skip coercion failures. -/
def applyStaged (desc : List FieldDesc) (scans : List ScanTarget) (vals : List GoVal) :
    List (Nat × Nat) → List FieldVal → Except String (List FieldVal)
  | [], st => .ok st
  | (i, idx) :: rest, st =>
      match scans.getD idx .holder with
      | .fieldPtr _ => .error "interface conversion panic"
      | .holder =>
          let v := vals.getD idx .vNil
          if v = .vNil then applyStaged desc scans vals rest st
          else
            match (desc.getD i dfltField).ftype with
            | .plain k =>
                match setFieldFromInterface k v with
                | .ok w => applyStaged desc scans vals rest (st.set i (.direct w))
                | .error _ => applyStaged desc scans vals rest st
            | _ => applyStaged desc scans vals rest st

/-- `ScanStruct[T]`: bind, scan (its outcome `scanned` is the driver's),
panic on a scan error via `handleError`, then run the staged pass.  The
result is the list of materialized field values (or the propagated panic). -/
def scanStruct (desc : List FieldDesc) (cols : List String)
    (scanned : Except String (List GoVal)) : Except String (List FieldVal) :=
  let b := bindFields cols desc 0 (List.replicate cols.length .holder) []
  match scanned with
  | .error e => .error ("Error scan fields: " ++ e)
  | .ok vals =>
      applyStaged desc b.1 vals b.2
        (applyDirect b.1 vals (desc.map fun fd => zeroOf fd.ftype))

/-- Per-field reference semantics (following the spec's per-field
description): an unmatched field keeps its zero value; a matched nullable
field receives the column value; a matched plain field receives the coerced
value, or keeps its zero value when the source is `nil` or the coercion
fails. -/
def materializeField (cols : List String) (vals : List GoVal) (fd : FieldDesc) : FieldVal :=
  match slicesIndex cols (resolveName fd) with
  | none => zeroOf fd.ftype
  | some idx =>
      if isNullableType fd.ftype then boxVal (vals.getD idx .vNil)
      else
        let v := vals.getD idx .vNil
        if v = .vNil then zeroOf fd.ftype
        else
          match fd.ftype with
          | .plain k =>
              match setFieldFromInterface k v with
              | .ok w => .direct w
              | .error _ => zeroOf fd.ftype
          | _ => zeroOf fd.ftype

/-! ## One and All (src/db.go lines 27-57)

The query cursor is a list of per-row scan outcomes; a query-level failure
is the `handleError` panic right after `db.Query`. -/

/-- The `for rows.Next()` loop of `All`: materialize every row in cursor
order, propagating any `ScanStruct` panic. -/
def allRows (desc : List FieldDesc) (cols : List String) :
    List (Except String (List GoVal)) → Except String (List (List FieldVal))
  | [] => .ok []
  | r :: rest =>
      match scanStruct desc cols r with
      | .error e => .error e
      | .ok s =>
          match allRows desc cols rest with
          | .error e => .error e
          | .ok l => .ok (s :: l)

/-- `All[T]`: panic on a query error, else run the row loop. -/
def goAll (desc : List FieldDesc) (cols : List String)
    (queryResult : Except String (List (Except String (List GoVal)))) :
    Except String (List (List FieldVal)) :=
  match queryResult with
  | .error e => .error ("Error On Get Rows: " ++ e)
  | .ok rows => allRows desc cols rows

/-- `One[T]`: panic on a query error; absence (`none`) when the cursor has
no row; else the materialized first row. -/
def goOne (desc : List FieldDesc) (cols : List String)
    (queryResult : Except String (List (Except String (List GoVal)))) :
    Except String (Option (List FieldVal)) :=
  match queryResult with
  | .error e => .error ("Error On Get Rows: " ++ e)
  | .ok [] => .ok none
  | .ok (r :: _) =>
      match scanStruct desc cols r with
      | .error e => .error e
      | .ok s => .ok (some s)

/-! ## Lemmas about `GenerateQueryString` -/

theorem replaceFirstQ_no_q (q r : List Char) (h : '?' ∉ q) : replaceFirstQ q r = q := by
  induction q with
  | nil => rfl
  | cons c cs ih =>
      simp only [List.mem_cons, not_or] at h
      simp [replaceFirstQ, Ne.symm h.1, ih h.2]

theorem replaceFirstQ_append (p q r : List Char) (h : '?' ∉ p) :
    replaceFirstQ (p ++ q) r = p ++ replaceFirstQ q r := by
  induction p with
  | nil => rfl
  | cons c cs ih =>
      simp only [List.mem_cons, not_or] at h
      simp [replaceFirstQ, Ne.symm h.1, ih h.2]

theorem generateQueryString_no_q (q : List Char) (args : List GoVal) (h : '?' ∉ q) :
    generateQueryString q args = q := by
  induction args generalizing q with
  | nil => rfl
  | cons a rest ih =>
      simp [generateQueryString, replaceFirstQ_no_q q _ h, ih q h]

theorem generateQueryString_append (args : List GoVal) (p q : List Char) (h : '?' ∉ p) :
    generateQueryString (p ++ q) args = p ++ generateQueryString q args := by
  induction args generalizing q with
  | nil => rfl
  | cons a rest ih =>
      simp [generateQueryString, replaceFirstQ_append p q _ h, ih (replaceFirstQ q (renderArg a).data)]

theorem generateQueryStringFuel_exact (args : List GoVal) :
    ∀ q : List Char, generateQueryStringFuel args.length q args = some (generateQueryString q args) := by
  induction args with
  | nil => intro q; rfl
  | cons a rest ih => intro q; simpa [generateQueryStringFuel, generateQueryString] using ih _

/-- Claim C9, counterexample.  The claim says quoting is applied exactly to
non-numeric, non-boolean, non-absent values, and that each placeholder is
substituted, left to right, with the corresponding argument's
representation.  Both fail on the code: a numeric `int64` argument is
quoted (`GenerateQueryString("x = ?", [int64(5)])` yields `x = '5'`, not
`x = 5`), and an argument whose representation contains `?` captures the
following argument (`GenerateQueryString("? ?", ["a?", 1])` yields `'a1' ?`
rather than `'a?' 1`). -/
theorem generateQueryString_claim_cex :
    generateQueryString "x = ?".data [GoVal.vInt64 5]
      = ("x = ".data ++ sq.data ++ "5".data ++ sq.data)
    ∧ isNumericVal (GoVal.vInt64 5) = true
    ∧ generateQueryString "x = ?".data [GoVal.vInt64 5] ≠ "x = 5".data
    ∧ generateQueryString "? ?".data [GoVal.vString "a?", GoVal.vInt 1]
        = (sq.data ++ "a1".data ++ sq.data ++ " ?".data)
    ∧ generateQueryString "? ?".data [GoVal.vString "a?", GoVal.vInt 1]
        ≠ (sq.data ++ "a?".data ++ sq.data ++ " 1".data) := by
  decide

/-- Claim C9, amended: substitution replaces the first `?` of the current
text, left to right over the arguments, so the placeholder correspondence
holds whenever the substituted representations contain no `?`; quoting is
applied exactly to arguments that are not of the exact Go types `bool`,
`int`, `float64` and are not `nil` (other numeric widths such as `int64`
are quoted); `bool`/`int`/`float64` are inserted via their `%v` form and
`nil` as the unquoted literal `NULL`. -/
theorem generateQueryString_substitution (p s : List Char) (a : GoVal) (rest : List GoVal)
    (hp : '?' ∉ p) (ha : '?' ∉ (renderArg a).data) :
    (generateQueryString (p ++ '?' :: s) (a :: rest)
       = p ++ (renderArg a).data ++ generateQueryString s rest)
    ∧ (isUnquotedCase a = false → renderArg a = sq ++ govalSprint a ++ sq)
    ∧ (∀ b : Bool, renderArg (.vBool b) = govalSprint (.vBool b))
    ∧ (∀ n : Int, renderArg (.vInt n) = govalSprint (.vInt n))
    ∧ (∀ x : Rat, renderArg (.vFloat x) = govalSprint (.vFloat x))
    ∧ renderArg .vNil = "NULL" := by
  refine ⟨?_, ?_, fun _ => rfl, fun _ => rfl, fun _ => rfl, rfl⟩
  · have h1 : replaceFirstQ (p ++ '?' :: s) (renderArg a).data
        = p ++ (renderArg a).data ++ s := by
      rw [replaceFirstQ_append _ _ _ hp]
      simp [replaceFirstQ]
    calc generateQueryString (p ++ '?' :: s) (a :: rest)
        = generateQueryString (p ++ (renderArg a).data ++ s) rest := by
          simp only [generateQueryString, h1]
      _ = p ++ (renderArg a).data ++ generateQueryString s rest := by
          rw [List.append_assoc, generateQueryString_append rest p _ hp,
            generateQueryString_append rest _ s ha, List.append_assoc]
  · intro h
    cases a <;> simp_all [isUnquotedCase, renderArg]

/-- Witness for `generateQueryString_substitution` at a concrete input. -/
theorem generateQueryString_substitution_witness :
    generateQueryString ("x = ".data ++ '?' :: []) [GoVal.vString "hi"]
      = "x = ".data ++ (renderArg (GoVal.vString "hi")).data ++ generateQueryString [] [] :=
  (generateQueryString_substitution "x = ".data [] (GoVal.vString "hi") []
    (by decide) (by decide)).1

/-- Claim C10, counterexample.  The recursion does terminate, but a surplus
argument does not always leave the query text unchanged: with query `"?"`
and arguments `["?", 1]`, the first substitution inserts `'?'`, and the
surplus second argument then rewrites it to `'1'`. -/
theorem generateQueryString_surplus_cex :
    generateQueryString "?".data [GoVal.vString "?", GoVal.vInt 1]
      = (sq.data ++ "1".data ++ sq.data)
    ∧ generateQueryString "?".data [GoVal.vString "?"]
      = (sq.data ++ "?".data ++ sq.data)
    ∧ (sq.data ++ "1".data ++ sq.data) ≠ (sq.data ++ "?".data ++ sq.data) := by
  decide

/-- Claim C10, amended: `GenerateQueryString` terminates for every query
string and every finite argument list, consuming exactly one argument per
recursive step (fuel `args.length` always suffices); and whenever the
current query text contains no `?` — in particular for surplus arguments
past a placeholder-free query — the remaining arguments leave the text
unchanged.  (A substituted representation containing `?` is treated as a
placeholder by later substitutions, which is what the counterexample
exhibits.) -/
theorem generateQueryString_terminates (q : List Char) (args : List GoVal) :
    generateQueryStringFuel args.length q args = some (generateQueryString q args)
    ∧ ('?' ∉ q → generateQueryString q args = q) :=
  ⟨generateQueryStringFuel_exact args q, generateQueryString_no_q q args⟩

/-- Witness for `generateQueryString_terminates` at a concrete input. -/
theorem generateQueryString_terminates_witness :
    generateQueryStringFuel 2 "ab".data [GoVal.vInt 1, GoVal.vInt 2]
      = some (generateQueryString "ab".data [GoVal.vInt 1, GoVal.vInt 2])
    ∧ generateQueryString "ab".data [GoVal.vInt 1, GoVal.vInt 2] = "ab".data := by
  have h := generateQueryString_terminates "ab".data [GoVal.vInt 1, GoVal.vInt 2]
  exact ⟨h.1, h.2 (by decide)⟩

/-! ## Lemmas about the pool slots -/

/-- Claim C1: the claim says `CloseDB` resets slot state so a later `GetDB`
re-initializes, and closes a slot's handle only if one is present.  The code
does neither: `sync.OnceValue` has no reset, so after `GetDB(); CloseDB()` a
further `GetDB()` returns the already-closed handle without a second
`initDB`, and `CloseDB` on a fresh process forcibly initializes both slots
(one `initDB` each) just to close them. -/
theorem closeDB_no_reset :
    ((closeDB initState).1.readInits = 1 ∧ (closeDB initState).1.writeInits = 1)
    ∧ ((closeDB (readDBOnce initState).1).1.readSlot = some 0
       ∧ 0 ∈ (closeDB (readDBOnce initState).1).1.closedHandles
       ∧ (readDBOnce (closeDB (readDBOnce initState).1).1).2 = 0
       ∧ (readDBOnce (closeDB (readDBOnce initState).1).1).1.readInits = 1) := by
  decide

theorem readDBOnce_readSlot (s : DBState) :
    (readDBOnce s).1.readSlot = some (readDBOnce s).2 := by
  cases h : s.readSlot <;> simp [readDBOnce, h]

theorem writeDBOnce_writeSlot (s : DBState) :
    (writeDBOnce s).1.writeSlot = some (writeDBOnce s).2 := by
  cases h : s.writeSlot <;> simp [writeDBOnce, h]

theorem readDBOnce_writeSlot (s : DBState) :
    (readDBOnce s).1.writeSlot = s.writeSlot := by
  cases h : s.readSlot <;> simp [readDBOnce, h]

theorem writeDBOnce_readSlot (s : DBState) :
    (writeDBOnce s).1.readSlot = s.readSlot := by
  cases h : s.writeSlot <;> simp [writeDBOnce, h]

theorem getDB_readSlot_some (s : DBState) :
    (getDB [true] s).1.readSlot = some (getDB [true] s).2 := by
  simpa [getDB] using readDBOnce_readSlot s

theorem getDB_writeSlot_some (s : DBState) :
    (getDB [false] s).1.writeSlot = some (getDB [false] s).2 := by
  simpa [getDB] using writeDBOnce_writeSlot s

theorem runCalls_readSlot_mono (cs : List Bool) :
    ∀ (s : DBState) (h : Nat), s.readSlot = some h → (runCalls cs s).1.readSlot = some h := by
  induction cs with
  | nil => intro s h hs; simpa [runCalls] using hs
  | cons c cs ih =>
      intro s h hs
      simp only [runCalls]
      apply ih
      cases c
      · rw [show getDB [false] s = writeDBOnce s from by simp [getDB], writeDBOnce_readSlot]
        exact hs
      · rw [show getDB [true] s = readDBOnce s from by simp [getDB]]
        simp [readDBOnce, hs]

theorem runCalls_writeSlot_mono (cs : List Bool) :
    ∀ (s : DBState) (h : Nat), s.writeSlot = some h → (runCalls cs s).1.writeSlot = some h := by
  induction cs with
  | nil => intro s h hs; simpa [runCalls] using hs
  | cons c cs ih =>
      intro s h hs
      simp only [runCalls]
      apply ih
      cases c
      · rw [show getDB [false] s = writeDBOnce s from by simp [getDB]]
        simp [writeDBOnce, hs]
      · rw [show getDB [true] s = readDBOnce s from by simp [getDB], readDBOnce_writeSlot]
        exact hs

theorem runCalls_results_read (cs : List Bool) :
    ∀ s : DBState, ∀ p ∈ cs.zip (runCalls cs s).2, p.1 = true →
      (runCalls cs s).1.readSlot = some p.2 := by
  induction cs with
  | nil => intro s p hp; simp [runCalls] at hp
  | cons c cs ih =>
      intro s p hp hread
      simp only [runCalls, List.zip_cons_cons, List.mem_cons] at hp
      rcases hp with hp | hp
      · subst hp
        simp only at hread
        subst hread
        exact runCalls_readSlot_mono cs _ _ (getDB_readSlot_some s)
      · exact ih _ p hp hread

theorem runCalls_results_write (cs : List Bool) :
    ∀ s : DBState, ∀ p ∈ cs.zip (runCalls cs s).2, p.1 = false →
      (runCalls cs s).1.writeSlot = some p.2 := by
  induction cs with
  | nil => intro s p hp; simp [runCalls] at hp
  | cons c cs ih =>
      intro s p hp hwrite
      simp only [runCalls, List.zip_cons_cons, List.mem_cons] at hp
      rcases hp with hp | hp
      · subst hp
        simp only at hwrite
        subst hwrite
        exact runCalls_writeSlot_mono cs _ _ (getDB_writeSlot_some s)
      · exact ih _ p hp hwrite

theorem runCalls_readInits (cs : List Bool) :
    ∀ s : DBState, (runCalls cs s).1.readInits
      = s.readInits + (if s.readSlot = none ∧ true ∈ cs then 1 else 0) := by
  induction cs with
  | nil => intro s; simp [runCalls]
  | cons c cs ih =>
      intro s
      simp only [runCalls]
      rw [ih]
      cases c
      · rw [show getDB [false] s = writeDBOnce s from by simp [getDB]]
        cases h : s.writeSlot <;> simp [writeDBOnce, h]
      · rw [show getDB [true] s = readDBOnce s from by simp [getDB]]
        cases h : s.readSlot <;> simp [readDBOnce, h]

theorem runCalls_writeInits (cs : List Bool) :
    ∀ s : DBState, (runCalls cs s).1.writeInits
      = s.writeInits + (if s.writeSlot = none ∧ false ∈ cs then 1 else 0) := by
  induction cs with
  | nil => intro s; simp [runCalls]
  | cons c cs ih =>
      intro s
      simp only [runCalls]
      rw [ih]
      cases c
      · rw [show getDB [false] s = writeDBOnce s from by simp [getDB]]
        cases h : s.writeSlot <;> simp [writeDBOnce, h]
      · rw [show getDB [true] s = readDBOnce s from by simp [getDB]]
        cases h : s.readSlot <;> simp [readDBOnce, h]

/-- Claim C8: over every sequential interleaving of `GetDB` calls starting
from a fresh process, each slot runs `initDB` (credential resolution,
tunnel registration, open, ping, limit-setting) exactly once if the slot is
requested at all and never otherwise, and all calls for the same slot
return the identical cached handle. -/
theorem getDB_init_once (calls : List Bool) :
    ((runCalls calls initState).1.readInits = if true ∈ calls then 1 else 0)
    ∧ ((runCalls calls initState).1.writeInits = if false ∈ calls then 1 else 0)
    ∧ (∀ p ∈ calls.zip (runCalls calls initState).2,
        ∀ q ∈ calls.zip (runCalls calls initState).2,
          p.1 = true → q.1 = true → p.2 = q.2)
    ∧ (∀ p ∈ calls.zip (runCalls calls initState).2,
        ∀ q ∈ calls.zip (runCalls calls initState).2,
          p.1 = false → q.1 = false → p.2 = q.2) := by
  refine ⟨?_, ?_, ?_, ?_⟩
  · rw [runCalls_readInits]; simp [initState]
  · rw [runCalls_writeInits]; simp [initState]
  · intro p hp q hq hp1 hq1
    have h1 := runCalls_results_read calls initState p hp hp1
    have h2 := runCalls_results_read calls initState q hq hq1
    rw [h1] at h2
    exact Option.some.inj h2
  · intro p hp q hq hp1 hq1
    have h1 := runCalls_results_write calls initState p hp hp1
    have h2 := runCalls_results_write calls initState q hq hq1
    rw [h1] at h2
    exact Option.some.inj h2

/-- Witness for `getDB_init_once` at the call sequence `[read, write, read]`. -/
theorem getDB_init_once_witness :
    (runCalls [true, false, true] initState).1.readInits = 1
    ∧ ((true, 0) : Bool × Nat).2 = ((true, 0) : Bool × Nat).2 := by
  constructor
  · have h := (getDB_init_once [true, false, true]).1
    rw [h]; decide
  · exact (getDB_init_once [true, false, true]).2.2.1 (true, 0) (by decide) (true, 0)
      (by decide) rfl rfl

/-! ## Read-pool credential fallback (C4) -/

/-- Environment for the C4 counterexample: complete read user/password, an
empty read host, but a configured read Cloud SQL instance. -/
def envCE : Env :=
  { databaseName := "d"
    databaseMode := "tcp"
    readUsername := "ru"
    readPassword := "rp"
    readHost := ""
    readInstances := "p:r:i"
    username := "wu"
    password := "wp"
    host := "wh"
    instances := "" }

/-- Claim C4, counterexample.  The claim says an empty read-address makes
the configuration fall back entirely to write credentials.  The code checks
emptiness only after the Cloud SQL connector override has already replaced
the address with `"localhost:3306"`, so with `DATABASE_READ_HOST` empty but
`DATABASE_READ_INSTANCES` configured no fallback happens: the user stays the
read user, not the write user. -/
theorem initDB_fallback_cex :
    envCE.readHost = ""
    ∧ (initDBConfig true envCE).user = "ru"
    ∧ (initDBConfig true envCE).passwd = "rp"
    ∧ (initDBConfig true envCE).user ≠ envCE.username := by
  decide

/-- Claim C4, amended: the read configuration falls back to the write
credentials exactly when the read user is empty, the read password is
empty, or the read address is empty *after* the connector override (that
is, `DATABASE_READ_HOST` empty and no `DATABASE_READ_INSTANCES`); and when
it falls back it does so entirely — user, password and address are all
taken from the write-role values (with the write connector override
applying to the address), never a partial merge. -/
theorem initDB_fallback_spec (env : Env) :
    (readFallbackCond env = true →
      (initDBConfig true env).user = env.username
      ∧ (initDBConfig true env).passwd = env.password
      ∧ (initDBConfig true env).addr
          = (if env.instances ≠ "" then "localhost:3306" else env.host))
    ∧ (readFallbackCond env = false →
      (initDBConfig true env).user = env.readUsername
      ∧ (initDBConfig true env).passwd = env.readPassword
      ∧ (initDBConfig true env).addr
          = (if env.readInstances ≠ "" then "localhost:3306" else env.readHost)) := by
  unfold initDBConfig fallbackPhase readPhase baseConfig readFallbackCond
  by_cases h1 : env.readInstances = "" <;>
    by_cases h2 : env.readUsername = "" <;>
      by_cases h3 : env.readPassword = "" <;>
        by_cases h4 : env.readHost = "" <;>
          by_cases h5 : env.instances = "" <;>
            simp_all

/-- Witness for `initDB_fallback_spec`: an environment with an empty read
user falls back fully to the write credentials. -/
theorem initDB_fallback_spec_witness :
    (initDBConfig true
        { databaseName := "d"
          databaseMode := "tcp"
          readUsername := ""
          readPassword := "rp"
          readHost := "rh"
          readInstances := ""
          username := "wu"
          password := "wp"
          host := "wh"
          instances := "" }).user = "wu" := by
  have h := (initDB_fallback_spec
    { databaseName := "d"
      databaseMode := "tcp"
      readUsername := ""
      readPassword := "rp"
      readHost := "rh"
      readInstances := ""
      username := "wu"
      password := "wp"
      host := "wh"
      instances := "" }).1 (by decide)
  exact h.1

/-! ## The coercion matrix (C5) -/

/-- Claim C5: field coercion is a pure function of the declared kind and the
source value (hence deterministic).  In particular: a single-byte byte
sequence `"1"` (code 49) coerced to a boolean destination yields `true` and
`"0"` (code 48) yields `false` (`setFieldFromInterface`); the numeric string
`"42"` coerced to an integer-declared target yields `42` (the aggressive
`typeConvertor` matrix of the second connector variant); a temporal
destination succeeds exactly on a temporal source value; and for the other
scalar kinds (`int`, `int64`, `float64`) the scan-path coercion succeeds
exactly when the source value's runtime type is `reflect`-convertible to
the destination kind (stated away from `nil`, where the Go code would
dereference a nil `reflect.Type` instead of returning). -/
theorem coercion_matrix :
    (setFieldFromInterface .kBool (.vBytes [49]) = .ok (.vBool true))
    ∧ (setFieldFromInterface .kBool (.vBytes [48]) = .ok (.vBool false))
    ∧ (typeConvertor (.vString "42") (some { isPtr := false, kind := .kInt }) = .vInt 42)
    ∧ (typeConvertor (.vString "42") (some { isPtr := false, kind := .kInt64 }) = .vInt 42)
    ∧ (∀ v : GoVal, isOkE (setFieldFromInterface .kTime v) = true ↔ ∃ t, v = .vTime t)
    ∧ (∀ v : GoVal, v ≠ .vNil →
        isOkE (setFieldFromInterface .kInt v) = convertibleTo v.typeOf .kInt
        ∧ isOkE (setFieldFromInterface .kInt64 v) = convertibleTo v.typeOf .kInt64
        ∧ isOkE (setFieldFromInterface .kFloat64 v) = convertibleTo v.typeOf .kFloat64) := by
  refine ⟨by decide, by decide, by decide, by decide, ?_, ?_⟩
  · intro v
    cases v <;> simp [setFieldFromInterface, isOkE]
  · intro v hv
    cases v <;>
      simp_all [setFieldFromInterface, isOkE, convertVal, convertibleTo, GoVal.typeOf]

/-- Witness for `coercion_matrix`: a string source is not convertible to an
integer destination, and the scan-path coercion indeed fails there. -/
theorem coercion_matrix_witness :
    isOkE (setFieldFromInterface .kInt (.vString "x"))
      = convertibleTo (GoVal.typeOf (.vString "x")) .kInt :=
  ((coercion_matrix.2.2.2.2.2) (.vString "x") (by decide)).1

/-! ## Scan-level failure (C2), One (C6) and All (C3) -/

/-- Claim C2: on a scan-level failure `ScanStruct` calls
`handleError("Error scan fields", err)`, which panics; the
`return structData` on the line below it is unreachable, so the
partially-populated row is never returned to the caller — the call aborts
with the panic (modelled as the propagated `Except.error`). -/
theorem scanStruct_scan_error_panics (desc : List FieldDesc) (cols : List String) (e : String) :
    scanStruct desc cols (.error e) = .error ("Error scan fields: " ++ e) := rfl

/-- Claim C6: `One` returns absence (`nil`), never a zero-valued record,
when the cursor yields no row, and the materialized first row when the
cursor yields at least one row. -/
theorem one_absence_and_first (desc : List FieldDesc) (cols : List String) :
    goOne desc cols (.ok []) = .ok none
    ∧ ∀ (r : Except String (List GoVal)) (rest : List (Except String (List GoVal)))
        (out : List FieldVal), scanStruct desc cols r = .ok out →
          goOne desc cols (.ok (r :: rest)) = .ok (some out) := by
  refine ⟨rfl, ?_⟩
  intro r rest out h
  simp [goOne, h]

/-- Witness for `one_absence_and_first` at a one-column, one-row cursor. -/
theorem one_absence_and_first_witness :
    goOne [{ name := "Id", jsonTag := "id", ftype := .plain .kInt }] ["id"]
        (.ok [.ok [.vInt64 3]])
      = .ok (some [.direct (.vInt 3)]) := by
  exact (one_absence_and_first [{ name := "Id", jsonTag := "id", ftype := .plain .kInt }]
    ["id"]).2 (.ok [.vInt64 3]) [] [.direct (.vInt 3)] (by decide)

/-- Claim C3: `All` returns the empty sequence (never absence) on a cursor
with zero rows, and on a cursor of `n` rows whose materializations all
succeed it returns exactly the `n` materialized rows in cursor order. -/
theorem all_empty_and_ordered (desc : List FieldDesc) (cols : List String) :
    goAll desc cols (.ok []) = .ok []
    ∧ ∀ (rows : List (Except String (List GoVal))) (outs : List (List FieldVal)),
        goAll desc cols (.ok rows) = .ok outs →
          outs.length = rows.length
          ∧ ∀ i, i < rows.length →
              scanStruct desc cols (rows.getD i (.ok [])) = .ok (outs.getD i []) := by
  refine ⟨rfl, ?_⟩
  intro rows
  induction rows with
  | nil =>
      intro outs h
      simp only [goAll, allRows] at h
      cases h
      exact ⟨rfl, by intro i hi; cases hi⟩
  | cons r rest ih =>
      intro outs h
      simp only [goAll, allRows] at h
      cases hs : scanStruct desc cols r with
      | error e => rw [hs] at h; cases h
      | ok s =>
          rw [hs] at h
          cases hrest : allRows desc cols rest with
          | error e => rw [hrest] at h; cases h
          | ok l =>
              rw [hrest] at h
              cases h
              have := ih l (by simpa [goAll] using hrest)
              refine ⟨by simp [this.1], ?_⟩
              intro i hi
              cases i with
              | zero => simpa using hs
              | succ j =>
                  have hj : j < rest.length := Nat.lt_of_succ_lt_succ hi
                  simpa using this.2 j hj

/-- Witness for `all_empty_and_ordered` at a two-row cursor. -/
theorem all_empty_and_ordered_witness :
    (goAll [{ name := "N", jsonTag := "n", ftype := .plain .kInt }] ["n"]
        (.ok [.ok [.vInt64 1], .ok [.vInt64 2]])
      = .ok [[.direct (.vInt 1)], [.direct (.vInt 2)]])
    ∧ ([[FieldVal.direct (GoVal.vInt 1)], [FieldVal.direct (GoVal.vInt 2)]].length = 2) := by
  constructor
  · decide
  · exact (congrArg (fun n => n = 2) ((all_empty_and_ordered
      [{ name := "N", jsonTag := "n", ftype := .plain .kInt }] ["n"]).2
        [.ok [.vInt64 1], .ok [.vInt64 2]]
        [[.direct (.vInt 1)], [.direct (.vInt 2)]] (by decide)).1).mpr rfl

/-! ## Column/field resolution tolerance (C7)

The record type of the counterexample: a non-nullable field and a nullable
field that resolve to the same column (via `json` tags), plus a field whose
column is absent from the cursor. -/

def descCE : List FieldDesc :=
  [ { name := "A", jsonTag := "a", ftype := .plain .kInt },
    { name := "B", jsonTag := "a", ftype := .ptrTo .kInt },
    { name := "X", jsonTag := "zz", ftype := .plain .kInt } ]

/-- Claim C7, counterexample.  The claim quantifies over every target record
type and cursor row.  When a non-nullable field and a nullable field resolve
to the same cursor column, the binding loop overwrites the shared scan slot
with the nullable field's address, and the staged pass's type assertion
`scans[m.scanIdx].(*any)` panics — the whole row fails even though the scan
itself succeeded, so the unmatched field `X` is not "left at its zero value
without raising an error" and the resolvable fields are not materialized. -/
theorem scanStruct_mismatch_cex :
    scanStruct descCE ["a"] (.ok [.vInt64 7]) = .error "interface conversion panic"
    ∧ slicesIndex ["a"]
        (resolveName { name := "X", jsonTag := "zz", ftype := .plain .kInt }) = none := by
  decide

/-! ### List helpers -/

theorem getD_set_self {α : Type} (l : List α) (i : Nat) (x d : α) (h : i < l.length) :
    (l.set i x).getD i d = x := by
  simp [List.getD, List.getElem?_set_self, h]

theorem getD_set_diff {α : Type} (l : List α) (i j : Nat) (x d : α) (h : i ≠ j) :
    (l.set i x).getD j d = l.getD j d := by
  simp [List.getD, List.getElem?_set_ne h]

theorem getD_map_lt {α β : Type} (l : List α) (f : α → β) (i : Nat) (d : β) (d2 : α)
    (h : i < l.length) : (l.map f).getD i d = f (l.getD i d2) := by
  simp [List.getD, List.getElem?_map, List.getElem?_eq_getElem h]

theorem getD_replicate {α : Type} (n i : Nat) (x d : α) :
    (List.replicate n x).getD i d = if i < n then x else d := by
  induction n generalizing i with
  | zero => simp [List.getD]
  | succ m ih =>
      cases i with
      | zero => simp [List.replicate, List.getD]
      | succ j => simpa [List.replicate, List.getD] using ih j

theorem nodup_map_getD_inj {α β : Type} (l : List α) (f : α → β) (d : α)
    (hn : (l.map f).Nodup) (i j : Nat) (hi : i < l.length) (hj : j < l.length)
    (h : f (l.getD i d) = f (l.getD j d)) : i = j := by
  have hi2 : i < (l.map f).length := by simpa using hi
  have hj2 : j < (l.map f).length := by simpa using hj
  have hget : (l.map f).get ⟨i, hi2⟩ = (l.map f).get ⟨j, hj2⟩ := by
    simpa [List.get_map, List.getD_eq_getElem, hi, hj,
      List.getElem_map] using h
  have := (List.Nodup.get_inj_iff hn).mp hget
  exact congrArg Fin.val this

/-! ### `slices.Index` facts -/

theorem slicesIndex_lt (l : List String) (x : String) (idx : Nat)
    (h : slicesIndex l x = some idx) : idx < l.length := by
  induction l generalizing idx with
  | nil => cases h
  | cons c cs ih =>
      simp only [slicesIndex] at h
      by_cases hc : c = x
      · rw [if_pos hc] at h
        cases h
        simp
      · rw [if_neg hc] at h
        obtain ⟨j, hj, rfl⟩ := Option.map_eq_some'.mp h
        have := ih j hj
        simp only [List.length_cons]
        omega

theorem slicesIndex_getD (l : List String) (x : String) (idx : Nat)
    (h : slicesIndex l x = some idx) : l.getD idx "" = x := by
  induction l generalizing idx with
  | nil => cases h
  | cons c cs ih =>
      simp only [slicesIndex] at h
      by_cases hc : c = x
      · rw [if_pos hc] at h
        cases h
        simpa [List.getD_cons_zero] using hc
      · rw [if_neg hc] at h
        obtain ⟨j, hj, rfl⟩ := Option.map_eq_some'.mp h
        simpa [List.getD_cons_succ] using ih j hj

theorem slicesIndex_inj (l : List String) (x y : String) (idx : Nat)
    (hx : slicesIndex l x = some idx) (hy : slicesIndex l y = some idx) : x = y := by
  rw [← slicesIndex_getD l x idx hx, ← slicesIndex_getD l y idx hy]

/-! ### Characterizing the binding loop -/

/-- The `notNullFields` list the binding loop produces, with the running
field index made explicit. -/
def stagedOf (cols : List String) : List FieldDesc → Nat → List (Nat × Nat)
  | [], _ => []
  | fd :: rest, i =>
      match slicesIndex cols (resolveName fd) with
      | none => stagedOf cols rest (i + 1)
      | some idx =>
          if isNullableType fd.ftype then stagedOf cols rest (i + 1)
          else (i, idx) :: stagedOf cols rest (i + 1)

/-- The relative index of the last field that directly binds scan position
`pos` (later nullable bindings overwrite earlier ones). -/
def lastBind (cols : List String) : List FieldDesc → Nat → Option Nat
  | [], _ => none
  | fd :: rest, pos =>
      match lastBind cols rest pos with
      | some j => some (j + 1)
      | none =>
          if isNullableType fd.ftype = true ∧ slicesIndex cols (resolveName fd) = some pos
          then some 0 else none

/-! Step equations for the recursions, so goals never hold a stuck match. -/

theorem bindFields_cons_none (cols : List String) (fd : FieldDesc) (rest : List FieldDesc)
    (i0 : Nat) (scans : List ScanTarget) (acc : List (Nat × Nat))
    (h : slicesIndex cols (resolveName fd) = none) :
    bindFields cols (fd :: rest) i0 scans acc = bindFields cols rest (i0 + 1) scans acc := by
  simp [bindFields, h]

theorem bindFields_cons_nullable (cols : List String) (fd : FieldDesc) (rest : List FieldDesc)
    (i0 idx : Nat) (scans : List ScanTarget) (acc : List (Nat × Nat))
    (h : slicesIndex cols (resolveName fd) = some idx) (hn : isNullableType fd.ftype = true) :
    bindFields cols (fd :: rest) i0 scans acc
      = bindFields cols rest (i0 + 1) (scans.set idx (.fieldPtr i0)) acc := by
  simp [bindFields, h, hn]

theorem bindFields_cons_plain (cols : List String) (fd : FieldDesc) (rest : List FieldDesc)
    (i0 idx : Nat) (scans : List ScanTarget) (acc : List (Nat × Nat))
    (h : slicesIndex cols (resolveName fd) = some idx) (hn : isNullableType fd.ftype = false) :
    bindFields cols (fd :: rest) i0 scans acc
      = bindFields cols rest (i0 + 1) scans (acc ++ [(i0, idx)]) := by
  simp [bindFields, h, hn]

theorem stagedOf_cons_none (cols : List String) (fd : FieldDesc) (rest : List FieldDesc)
    (i0 : Nat) (h : slicesIndex cols (resolveName fd) = none) :
    stagedOf cols (fd :: rest) i0 = stagedOf cols rest (i0 + 1) := by
  simp [stagedOf, h]

theorem stagedOf_cons_nullable (cols : List String) (fd : FieldDesc) (rest : List FieldDesc)
    (i0 idx : Nat) (h : slicesIndex cols (resolveName fd) = some idx)
    (hn : isNullableType fd.ftype = true) :
    stagedOf cols (fd :: rest) i0 = stagedOf cols rest (i0 + 1) := by
  simp [stagedOf, h, hn]

theorem stagedOf_cons_plain (cols : List String) (fd : FieldDesc) (rest : List FieldDesc)
    (i0 idx : Nat) (h : slicesIndex cols (resolveName fd) = some idx)
    (hn : isNullableType fd.ftype = false) :
    stagedOf cols (fd :: rest) i0 = (i0, idx) :: stagedOf cols rest (i0 + 1) := by
  simp [stagedOf, h, hn]

theorem lastBind_cons_found (cols : List String) (fd : FieldDesc) (rest : List FieldDesc)
    (pos j : Nat) (h : lastBind cols rest pos = some j) :
    lastBind cols (fd :: rest) pos = some (j + 1) := by
  simp [lastBind, h]

theorem lastBind_cons_here (cols : List String) (fd : FieldDesc) (rest : List FieldDesc)
    (pos : Nat) (h : lastBind cols rest pos = none)
    (hn : isNullableType fd.ftype = true) (hi : slicesIndex cols (resolveName fd) = some pos) :
    lastBind cols (fd :: rest) pos = some 0 := by
  simp [lastBind, h, hn, hi]

theorem lastBind_cons_miss (cols : List String) (fd : FieldDesc) (rest : List FieldDesc)
    (pos : Nat) (h : lastBind cols rest pos = none)
    (hc : ¬(isNullableType fd.ftype = true ∧ slicesIndex cols (resolveName fd) = some pos)) :
    lastBind cols (fd :: rest) pos = none := by
  simp only [lastBind, h]
  rw [if_neg hc]

theorem lastBind_sound (cols : List String) (ds : List FieldDesc) (pos j : Nat)
    (h : lastBind cols ds pos = some j) :
    j < ds.length
    ∧ isNullableType (ds.getD j dfltField).ftype = true
    ∧ slicesIndex cols (resolveName (ds.getD j dfltField)) = some pos := by
  induction ds generalizing j with
  | nil => cases h
  | cons fd rest ih =>
      simp only [lastBind] at h
      cases hr : lastBind cols rest pos with
      | some j2 =>
          simp only [hr] at h
          cases h
          obtain ⟨h1, h2, h3⟩ := ih j2 hr
          refine ⟨?_, ?_, ?_⟩
          · simp only [List.length_cons]; omega
          · rw [List.getD_cons_succ]; exact h2
          · rw [List.getD_cons_succ]; exact h3
      | none =>
          simp only [hr] at h
          by_cases hc : isNullableType fd.ftype = true
            ∧ slicesIndex cols (resolveName fd) = some pos
          · rw [if_pos hc] at h
            cases h
            refine ⟨by simp, ?_, ?_⟩
            · rw [List.getD_cons_zero]; exact hc.1
            · rw [List.getD_cons_zero]; exact hc.2
          · rw [if_neg hc] at h
            cases h

theorem lastBind_complete (cols : List String) (ds : List FieldDesc) (pos j : Nat)
    (hj : j < ds.length)
    (hnull : isNullableType (ds.getD j dfltField).ftype = true)
    (hidx : slicesIndex cols (resolveName (ds.getD j dfltField)) = some pos) :
    lastBind cols ds pos ≠ none := by
  induction ds generalizing j with
  | nil => cases hj
  | cons fd rest ih =>
      cases hr : lastBind cols rest pos with
      | some j2 => rw [lastBind_cons_found cols fd rest pos j2 hr]; simp
      | none =>
          cases j with
          | zero =>
              rw [List.getD_cons_zero] at hnull hidx
              rw [lastBind_cons_here cols fd rest pos hr hnull hidx]
              simp
          | succ j2 =>
              exfalso
              have hj2 : j2 < rest.length := by
                simp only [List.length_cons] at hj
                omega
              rw [List.getD_cons_succ] at hnull hidx
              exact ih j2 hj2 hnull hidx hr

theorem stagedOf_mem (cols : List String) (ds : List FieldDesc) (i0 : Nat)
    (p : Nat × Nat) (hp : p ∈ stagedOf cols ds i0) :
    i0 ≤ p.1 ∧ p.1 - i0 < ds.length
    ∧ isNullableType (ds.getD (p.1 - i0) dfltField).ftype = false
    ∧ slicesIndex cols (resolveName (ds.getD (p.1 - i0) dfltField)) = some p.2 := by
  induction ds generalizing i0 with
  | nil => simp [stagedOf] at hp
  | cons fd rest ih =>
      have step : ∀ hp2 : p ∈ stagedOf cols rest (i0 + 1),
          i0 ≤ p.1 ∧ p.1 - i0 < (fd :: rest).length
          ∧ isNullableType ((fd :: rest).getD (p.1 - i0) dfltField).ftype = false
          ∧ slicesIndex cols (resolveName ((fd :: rest).getD (p.1 - i0) dfltField))
              = some p.2 := by
        intro hp2
        obtain ⟨ha, hb, hc, hd⟩ := ih (i0 + 1) hp2
        have h3 : p.1 - i0 = (p.1 - (i0 + 1)) + 1 := by omega
        refine ⟨by omega, ?_, ?_, ?_⟩
        · simp only [List.length_cons]; omega
        · rw [h3, List.getD_cons_succ]; exact hc
        · rw [h3, List.getD_cons_succ]; exact hd
      cases hm : slicesIndex cols (resolveName fd) with
      | none =>
          rw [stagedOf_cons_none cols fd rest i0 hm] at hp
          exact step hp
      | some idx =>
          cases hn : isNullableType fd.ftype with
          | true =>
              rw [stagedOf_cons_nullable cols fd rest i0 idx hm hn] at hp
              exact step hp
          | false =>
              rw [stagedOf_cons_plain cols fd rest i0 idx hm hn] at hp
              rcases List.mem_cons.mp hp with hp | hp
              · subst hp
                refine ⟨Nat.le_refl _, by simp, ?_, ?_⟩
                · simpa [List.getD_cons_zero] using hn
                · simpa [List.getD_cons_zero] using hm
              · exact step hp

theorem stagedOf_mem_intro (cols : List String) (ds : List FieldDesc) (i0 j idx : Nat)
    (hj : j < ds.length)
    (hplain : isNullableType (ds.getD j dfltField).ftype = false)
    (hidx : slicesIndex cols (resolveName (ds.getD j dfltField)) = some idx) :
    (i0 + j, idx) ∈ stagedOf cols ds i0 := by
  induction ds generalizing i0 j with
  | nil => cases hj
  | cons fd rest ih =>
      cases j with
      | zero =>
          rw [List.getD_cons_zero] at hplain hidx
          rw [stagedOf_cons_plain cols fd rest i0 idx hidx hplain]
          simp
      | succ j2 =>
          have hj2 : j2 < rest.length := by
            simp only [List.length_cons] at hj
            omega
          rw [List.getD_cons_succ] at hplain hidx
          have hmem := ih (i0 + 1) j2 hj2 hplain hidx
          have harith : i0 + 1 + j2 = i0 + (j2 + 1) := by omega
          rw [harith] at hmem
          cases hm : slicesIndex cols (resolveName fd) with
          | none => rw [stagedOf_cons_none cols fd rest i0 hm]; exact hmem
          | some idx2 =>
              cases hn : isNullableType fd.ftype with
              | true =>
                  rw [stagedOf_cons_nullable cols fd rest i0 idx2 hm hn]
                  exact hmem
              | false =>
                  rw [stagedOf_cons_plain cols fd rest i0 idx2 hm hn]
                  exact List.mem_cons_of_mem _ hmem

theorem stagedOf_firsts_lb (cols : List String) (ds : List FieldDesc) (i0 : Nat)
    (p : Nat × Nat) (hp : p ∈ stagedOf cols ds i0) : i0 ≤ p.1 :=
  (stagedOf_mem cols ds i0 p hp).1

theorem stagedOf_firsts_nodup (cols : List String) (ds : List FieldDesc) (i0 : Nat) :
    ((stagedOf cols ds i0).map Prod.fst).Nodup := by
  induction ds generalizing i0 with
  | nil => simp [stagedOf]
  | cons fd rest ih =>
      cases hm : slicesIndex cols (resolveName fd) with
      | none => rw [stagedOf_cons_none cols fd rest i0 hm]; exact ih (i0 + 1)
      | some idx =>
          cases hn : isNullableType fd.ftype with
          | true =>
              rw [stagedOf_cons_nullable cols fd rest i0 idx hm hn]
              exact ih (i0 + 1)
          | false =>
              rw [stagedOf_cons_plain cols fd rest i0 idx hm hn]
              simp only [List.map_cons, List.nodup_cons]
              refine ⟨?_, ih (i0 + 1)⟩
              intro hmem
              simp only [List.mem_map] at hmem
              obtain ⟨p, hp, hp1⟩ := hmem
              have := stagedOf_firsts_lb cols rest (i0 + 1) p hp
              omega

theorem bindFields_scans_length (cols : List String) (ds : List FieldDesc) (i0 : Nat)
    (scans : List ScanTarget) (acc : List (Nat × Nat)) :
    (bindFields cols ds i0 scans acc).1.length = scans.length := by
  induction ds generalizing i0 scans acc with
  | nil => rfl
  | cons fd rest ih =>
      cases hm : slicesIndex cols (resolveName fd) with
      | none => rw [bindFields_cons_none cols fd rest i0 scans acc hm]; exact ih _ _ _
      | some idx =>
          cases hn : isNullableType fd.ftype with
          | true =>
              rw [bindFields_cons_nullable cols fd rest i0 idx scans acc hm hn]
              simpa using ih (i0 + 1) (scans.set idx (.fieldPtr i0)) acc
          | false =>
              rw [bindFields_cons_plain cols fd rest i0 idx scans acc hm hn]
              exact ih _ _ _

theorem bindFields_notNull (cols : List String) (ds : List FieldDesc) (i0 : Nat)
    (scans : List ScanTarget) (acc : List (Nat × Nat)) :
    (bindFields cols ds i0 scans acc).2 = acc ++ stagedOf cols ds i0 := by
  induction ds generalizing i0 scans acc with
  | nil => simp [bindFields, stagedOf]
  | cons fd rest ih =>
      cases hm : slicesIndex cols (resolveName fd) with
      | none =>
          rw [bindFields_cons_none cols fd rest i0 scans acc hm,
            stagedOf_cons_none cols fd rest i0 hm]
          exact ih _ _ _
      | some idx =>
          cases hn : isNullableType fd.ftype with
          | true =>
              rw [bindFields_cons_nullable cols fd rest i0 idx scans acc hm hn,
                stagedOf_cons_nullable cols fd rest i0 idx hm hn]
              exact ih _ _ _
          | false =>
              rw [bindFields_cons_plain cols fd rest i0 idx scans acc hm hn,
                stagedOf_cons_plain cols fd rest i0 idx hm hn,
                ih (i0 + 1) scans (acc ++ [(i0, idx)])]
              simp

theorem bindFields_scans_getD (cols : List String) (ds : List FieldDesc) (i0 : Nat)
    (scans : List ScanTarget) (acc : List (Nat × Nat)) (pos : Nat)
    (hlen : scans.length = cols.length) :
    (bindFields cols ds i0 scans acc).1.getD pos .holder
      = match lastBind cols ds pos with
        | some j => .fieldPtr (i0 + j)
        | none => scans.getD pos .holder := by
  induction ds generalizing i0 scans acc with
  | nil => simp [bindFields, lastBind]
  | cons fd rest ih =>
      cases hm : slicesIndex cols (resolveName fd) with
      | none =>
          rw [bindFields_cons_none cols fd rest i0 scans acc hm,
            ih (i0 + 1) scans acc hlen]
          cases hr : lastBind cols rest pos with
          | some j =>
              rw [lastBind_cons_found cols fd rest pos j hr]
              simp only
              congr 1
              omega
          | none =>
              rw [lastBind_cons_miss cols fd rest pos hr (by
                rintro ⟨-, h2⟩
                rw [hm] at h2
                cases h2)]
      | some idx =>
          cases hn : isNullableType fd.ftype with
          | true =>
              rw [bindFields_cons_nullable cols fd rest i0 idx scans acc hm hn,
                ih (i0 + 1) _ acc (by simpa using hlen)]
              cases hr : lastBind cols rest pos with
              | some j =>
                  rw [lastBind_cons_found cols fd rest pos j hr]
                  simp only
                  congr 1
                  omega
              | none =>
                  by_cases hpos : pos = idx
                  · subst hpos
                    rw [lastBind_cons_here cols fd rest pos hr hn hm]
                    have hlt : pos < scans.length := by
                      rw [hlen]; exact slicesIndex_lt cols _ pos hm
                    simpa using getD_set_self scans pos
                      (ScanTarget.fieldPtr i0) ScanTarget.holder hlt
                  · rw [lastBind_cons_miss cols fd rest pos hr (by
                      rintro ⟨-, h2⟩
                      rw [hm] at h2
                      exact hpos (Option.some.inj h2).symm)]
                    exact getD_set_diff scans idx pos _ _ (fun h => hpos h.symm)
          | false =>
              rw [bindFields_cons_plain cols fd rest i0 idx scans acc hm hn,
                ih (i0 + 1) scans _ hlen]
              cases hr : lastBind cols rest pos with
              | some j =>
                  rw [lastBind_cons_found cols fd rest pos j hr]
                  simp only
                  congr 1
                  omega
              | none =>
                  rw [lastBind_cons_miss cols fd rest pos hr (by
                    rintro ⟨h1, -⟩
                    rw [hn] at h1
                    cases h1)]

/-! ### Characterizing the direct-scan pass -/

theorem applyDirect_nil_targets (vs : List GoVal) (st : List FieldVal) :
    applyDirect [] vs st = st := rfl

theorem applyDirect_nil_vals (ts : List ScanTarget) (st : List FieldVal) :
    applyDirect ts [] st = st := by
  cases ts with
  | nil => rfl
  | cons t ts => cases t <;> rfl

theorem applyDirect_cons_holder (ts : List ScanTarget) (v : GoVal) (vs : List GoVal)
    (st : List FieldVal) :
    applyDirect (.holder :: ts) (v :: vs) st = applyDirect ts vs st := rfl

theorem applyDirect_cons_ptr (i : Nat) (ts : List ScanTarget) (v : GoVal) (vs : List GoVal)
    (st : List FieldVal) :
    applyDirect (.fieldPtr i :: ts) (v :: vs) st = applyDirect ts vs (st.set i (boxVal v)) := rfl

theorem applyDirect_length (ts : List ScanTarget) :
    ∀ (vs : List GoVal) (st : List FieldVal), (applyDirect ts vs st).length = st.length := by
  induction ts with
  | nil => intro vs st; rfl
  | cons t ts ih =>
      intro vs st
      cases vs with
      | nil => rw [applyDirect_nil_vals]
      | cons v vs =>
          cases t with
          | holder => rw [applyDirect_cons_holder]; exact ih vs st
          | fieldPtr i =>
              rw [applyDirect_cons_ptr]
              simpa using ih vs (st.set i (boxVal v))

theorem applyDirect_getD_untouched (ts : List ScanTarget) :
    ∀ (vs : List GoVal) (st : List FieldVal) (i : Nat) (d : FieldVal),
      (∀ pos : Nat, ts.getD pos .holder ≠ .fieldPtr i) →
      (applyDirect ts vs st).getD i d = st.getD i d := by
  induction ts with
  | nil => intro vs st i d _; rw [applyDirect_nil_targets]
  | cons t ts ih =>
      intro vs st i d h
      cases vs with
      | nil => rw [applyDirect_nil_vals]
      | cons v vs =>
          have htail : ∀ pos : Nat, ts.getD pos .holder ≠ .fieldPtr i := by
            intro pos
            have := h (pos + 1)
            rwa [List.getD_cons_succ] at this
          cases t with
          | holder => rw [applyDirect_cons_holder]; exact ih vs st i d htail
          | fieldPtr j =>
              rw [applyDirect_cons_ptr, ih vs _ i d htail]
              have hji : j ≠ i := by
                intro hj
                exact h 0 (by rw [List.getD_cons_zero, hj])
              exact getD_set_diff st j i _ d hji

theorem applyDirect_getD_bound (ts : List ScanTarget) :
    ∀ (vs : List GoVal) (st : List FieldVal) (i idx : Nat) (d : FieldVal),
      ts.getD idx .holder = .fieldPtr i →
      (∀ pos : Nat, pos ≠ idx → ts.getD pos .holder ≠ .fieldPtr i) →
      ts.length = vs.length → idx < ts.length → i < st.length →
      (applyDirect ts vs st).getD i d = boxVal (vs.getD idx .vNil) := by
  induction ts with
  | nil => intro vs st i idx d h1 h2 h3 h4 h5; cases h4
  | cons t ts ih =>
      intro vs st i idx d h1 h2 h3 h4 h5
      cases vs with
      | nil => simp at h3
      | cons v vs =>
          cases idx with
          | zero =>
              rw [List.getD_cons_zero] at h1
              subst h1
              rw [applyDirect_cons_ptr]
              have htail : ∀ pos : Nat, ts.getD pos .holder ≠ .fieldPtr i := by
                intro pos
                have := h2 (pos + 1) (by omega)
                rwa [List.getD_cons_succ] at this
              rw [applyDirect_getD_untouched ts vs _ i d htail, List.getD_cons_zero]
              exact getD_set_self st i (boxVal v) d h5
          | succ idx2 =>
              rw [List.getD_cons_succ] at h1
              have htail2 : ∀ pos : Nat, pos ≠ idx2 → ts.getD pos .holder ≠ .fieldPtr i := by
                intro pos hp
                have := h2 (pos + 1) (by omega)
                rwa [List.getD_cons_succ] at this
              have hlen2 : ts.length = vs.length := by simpa using h3
              have hidx2 : idx2 < ts.length := by
                simp only [List.length_cons] at h4
                omega
              rw [List.getD_cons_succ]
              cases t with
              | holder =>
                  rw [applyDirect_cons_holder]
                  exact ih vs st i idx2 d h1 htail2 hlen2 hidx2 h5
              | fieldPtr j =>
                  rw [applyDirect_cons_ptr]
                  exact ih vs (st.set j (boxVal v)) i idx2 d h1 htail2 hlen2 hidx2
                    (by simpa using h5)

/-! ### Characterizing the staged pass -/

/-- The update one staged `(structIdx, scanIdx)` entry performs on the
record under construction. -/
def updOne (desc : List FieldDesc) (vals : List GoVal) (p : Nat × Nat)
    (st : List FieldVal) : List FieldVal :=
  let v := vals.getD p.2 .vNil
  if v = .vNil then st
  else
    match (desc.getD p.1 dfltField).ftype with
    | .plain k =>
        match setFieldFromInterface k v with
        | .ok w => st.set p.1 (.direct w)
        | .error _ => st
    | _ => st

/-- The cumulative effect of the staged pass when no slot was overwritten. -/
def stFold (desc : List FieldDesc) (vals : List GoVal) :
    List (Nat × Nat) → List FieldVal → List FieldVal
  | [], st => st
  | p :: rest, st => stFold desc vals rest (updOne desc vals p st)

/-- What one staged entry leaves in its destination field. -/
def stagedUpd (ft : FieldType) (v : GoVal) (prev : FieldVal) : FieldVal :=
  if v = .vNil then prev
  else
    match ft with
    | .plain k =>
        match setFieldFromInterface k v with
        | .ok w => .direct w
        | .error _ => prev
    | _ => prev

theorem applyStaged_cons_of_holder (desc : List FieldDesc) (scans : List ScanTarget)
    (vals : List GoVal) (i idx : Nat) (rest : List (Nat × Nat)) (st : List FieldVal)
    (hh : scans.getD idx .holder = .holder) :
    applyStaged desc scans vals ((i, idx) :: rest) st
      = applyStaged desc scans vals rest (updOne desc vals (i, idx) st) := by
  simp only [applyStaged, hh, updOne]
  split
  · rfl
  · split
    · split
      · rfl
      · rfl
    · rfl

theorem applyStaged_eq_stFold (desc : List FieldDesc) (scans : List ScanTarget)
    (vals : List GoVal) (N : List (Nat × Nat)) :
    ∀ st : List FieldVal, (∀ p ∈ N, scans.getD p.2 .holder = .holder) →
      applyStaged desc scans vals N st = .ok (stFold desc vals N st) := by
  induction N with
  | nil => intro st _; rfl
  | cons p rest ih =>
      intro st h
      obtain ⟨i, idx⟩ := p
      rw [applyStaged_cons_of_holder desc scans vals i idx rest st
        (h (i, idx) (List.mem_cons_self _ _))]
      exact ih _ (fun q hq => h q (List.mem_cons_of_mem _ hq))

theorem updOne_length (desc : List FieldDesc) (vals : List GoVal) (p : Nat × Nat)
    (st : List FieldVal) : (updOne desc vals p st).length = st.length := by
  simp only [updOne]
  split
  · rfl
  · split
    · split
      · simp
      · rfl
    · rfl

theorem updOne_getD_other (desc : List FieldDesc) (vals : List GoVal) (p : Nat × Nat)
    (st : List FieldVal) (i : Nat) (d : FieldVal) (h : p.1 ≠ i) :
    (updOne desc vals p st).getD i d = st.getD i d := by
  simp only [updOne]
  split
  · rfl
  · split
    · split
      · exact getD_set_diff st p.1 i _ d h
      · rfl
    · rfl

theorem updOne_getD_self (desc : List FieldDesc) (vals : List GoVal) (i idx : Nat)
    (st : List FieldVal) (d : FieldVal) (h : i < st.length) :
    (updOne desc vals (i, idx) st).getD i d
      = stagedUpd (desc.getD i dfltField).ftype (vals.getD idx .vNil) (st.getD i d) := by
  simp only [updOne, stagedUpd]
  split
  · rfl
  · split
    · split
      · exact getD_set_self st i _ d h
      · rfl
    · rfl

theorem stFold_length (desc : List FieldDesc) (vals : List GoVal) (N : List (Nat × Nat)) :
    ∀ st : List FieldVal, (stFold desc vals N st).length = st.length := by
  induction N with
  | nil => intro st; rfl
  | cons p rest ih =>
      intro st
      simp only [stFold]
      rw [ih, updOne_length]

theorem stFold_getD_untouched (desc : List FieldDesc) (vals : List GoVal)
    (N : List (Nat × Nat)) :
    ∀ (st : List FieldVal) (i : Nat) (d : FieldVal), (∀ q ∈ N, q.1 ≠ i) →
      (stFold desc vals N st).getD i d = st.getD i d := by
  induction N with
  | nil => intro st i d _; rfl
  | cons p rest ih =>
      intro st i d h
      simp only [stFold]
      rw [ih _ i d (fun q hq => h q (List.mem_cons_of_mem _ hq))]
      exact updOne_getD_other desc vals p st i d (h p (List.mem_cons_self _ _))

theorem stFold_getD_once (desc : List FieldDesc) (vals : List GoVal) (p : Nat × Nat)
    (n1 : List (Nat × Nat)) :
    ∀ (n2 : List (Nat × Nat)) (st : List FieldVal) (d : FieldVal),
      (∀ q ∈ n1, q.1 ≠ p.1) → (∀ q ∈ n2, q.1 ≠ p.1) → p.1 < st.length →
      (stFold desc vals (n1 ++ p :: n2) st).getD p.1 d
        = stagedUpd (desc.getD p.1 dfltField).ftype (vals.getD p.2 .vNil) (st.getD p.1 d) := by
  induction n1 with
  | nil =>
      intro n2 st d _ h2 hlt
      simp only [List.nil_append, stFold]
      rw [stFold_getD_untouched desc vals n2 _ p.1 d h2]
      obtain ⟨i, idx⟩ := p
      exact updOne_getD_self desc vals i idx st d hlt
  | cons q n1 ih =>
      intro n2 st d h1 h2 hlt
      have hq : q.1 ≠ p.1 := h1 q (List.mem_cons_self _ _)
      have hstep : stFold desc vals ((q :: n1) ++ p :: n2) st
          = stFold desc vals (n1 ++ p :: n2) (updOne desc vals q st) := rfl
      rw [hstep, ih n2 _ d (fun r hr => h1 r (List.mem_cons_of_mem _ hr)) h2
        (by rw [updOne_length]; exact hlt)]
      rw [updOne_getD_other desc vals q st p.1 d hq]

/-- Splitting a pair list at a member whose first components are distinct. -/
theorem mem_firsts_nodup_split (p : Nat × Nat) (N : List (Nat × Nat))
    (hmem : p ∈ N) (hnd : (N.map Prod.fst).Nodup) :
    ∃ n1 n2, N = n1 ++ p :: n2 ∧ (∀ q ∈ n1, q.1 ≠ p.1) ∧ (∀ q ∈ n2, q.1 ≠ p.1) := by
  induction N with
  | nil => cases hmem
  | cons q N ih =>
      have hnd2 := hnd
      simp only [List.map_cons, List.nodup_cons] at hnd2
      obtain ⟨hq, hnd3⟩ := hnd2
      rcases List.mem_cons.mp hmem with h | h
      · subst h
        refine ⟨[], N, rfl, by simp, ?_⟩
        intro r hr he
        exact hq (List.mem_map.mpr ⟨r, hr, he⟩)
      · obtain ⟨n1, n2, hN, h1, h2⟩ := ih h hnd3
        refine ⟨q :: n1, n2, by rw [hN]; rfl, ?_, h2⟩
        intro r hr
        rcases List.mem_cons.mp hr with hr | hr
        · subst hr
          intro he
          apply hq
          rw [he]
          exact List.mem_map.mpr ⟨p, h, rfl⟩
        · exact h1 r hr

/-- A non-nullable field is a plain scalar. -/
theorem not_nullable_plain (ft : FieldType) (h : isNullableType ft = false) :
    ∃ k, ft = .plain k := by
  cases ft <;> simp_all [isNullableType]

/-- Extensionality through `getD`. -/
theorem list_ext_getD {α : Type} (d : α) (l1 l2 : List α) (hlen : l1.length = l2.length)
    (h : ∀ i, i < l1.length → l1.getD i d = l2.getD i d) : l1 = l2 := by
  apply List.ext_getElem hlen
  intro i h1 h2
  have := h i h1
  simpa [List.getD_eq_getElem, h1, h2] using this

/-- `materializeField` at an unmatched field. -/
theorem materializeField_unmatched (cols : List String) (vals : List GoVal) (fd : FieldDesc)
    (hm : slicesIndex cols (resolveName fd) = none) :
    materializeField cols vals fd = zeroOf fd.ftype := by
  simp only [materializeField, hm]

/-- `materializeField` at a matched nullable field. -/
theorem materializeField_nullable (cols : List String) (vals : List GoVal) (fd : FieldDesc)
    (idx : Nat) (hm : slicesIndex cols (resolveName fd) = some idx)
    (hnull : isNullableType fd.ftype = true) :
    materializeField cols vals fd = boxVal (vals.getD idx .vNil) := by
  simp only [materializeField, hm, hnull]
  simp

/-- Bridge between the staged-pass update on a zeroed plain field and the
per-field reference semantics at a matched column. -/
theorem stagedUpd_plain_eq_materialize (cols : List String) (vals : List GoVal)
    (fd : FieldDesc) (idx : Nat) (k : GoKind)
    (hm : slicesIndex cols (resolveName fd) = some idx) (hk : fd.ftype = .plain k) :
    stagedUpd fd.ftype (vals.getD idx .vNil) (zeroOf fd.ftype)
      = materializeField cols vals fd := by
  simp only [materializeField, hm, hk, stagedUpd, zeroOf, isNullableType]
  by_cases hv : vals.getD idx .vNil = .vNil
  · simp [hv]
  · cases hst : setFieldFromInterface k (vals.getD idx .vNil) with
    | ok w => simp [hv, hst]
    | error e => simp [hv, hst]

/-- Claim C7, amended: provided the declared fields' resolved column names
are pairwise distinct (the counterexample shows the claim as stated fails
when a non-nullable and a nullable field share a resolved column — the
staged pass then panics on its type assertion and the whole row fails), a
successfully scanned row materializes each field independently: a field
whose resolved column matches no cursor column stays at its zero value
without any error, a matched nullable field receives the column value, and
a matched non-nullable field receives the coerced value or stays at its
zero value — one mismatch never fails the whole row. -/
theorem scanStruct_characterization (desc : List FieldDesc) (cols : List String)
    (vals : List GoVal) (hnodup : (desc.map resolveName).Nodup)
    (hlen : vals.length = cols.length) :
    scanStruct desc cols (.ok vals) = .ok (desc.map (materializeField cols vals)) := by
  rcases hbind : bindFields cols desc 0 (List.replicate cols.length .holder) []
    with ⟨scans, N⟩
  have hN : N = stagedOf cols desc 0 := by
    have h := bindFields_notNull cols desc 0 (List.replicate cols.length .holder) []
    rw [hbind] at h
    simpa using h
  have hslen : scans.length = cols.length := by
    have h := bindFields_scans_length cols desc 0 (List.replicate cols.length .holder) []
    rw [hbind] at h
    simpa using h
  have hgetD : ∀ pos : Nat, scans.getD pos .holder
      = match lastBind cols desc pos with
        | some j => ScanTarget.fieldPtr j
        | none => ScanTarget.holder := by
    intro pos
    have h := bindFields_scans_getD cols desc 0 (List.replicate cols.length .holder) [] pos
      (by simp)
    rw [hbind] at h
    simp only at h
    rw [h]
    cases hlb : lastBind cols desc pos with
    | some j => simp
    | none => simp [getD_replicate]
  have hnotPtr : ∀ i pos : Nat, scans.getD pos .holder = .fieldPtr i →
      i < desc.length ∧ isNullableType (desc.getD i dfltField).ftype = true
        ∧ slicesIndex cols (resolveName (desc.getD i dfltField)) = some pos := by
    intro i pos hp
    rw [hgetD pos] at hp
    cases hlb : lastBind cols desc pos with
    | none => simp only [hlb] at hp; cases hp
    | some j =>
        simp only [hlb] at hp
        have hji := ScanTarget.fieldPtr.inj hp
        subst hji
        exact lastBind_sound cols desc pos _ hlb
  have hholderN : ∀ p ∈ N, scans.getD p.2 .holder = .holder := by
    intro p hp
    rw [hN] at hp
    obtain ⟨-, hb, hc, hd⟩ := stagedOf_mem cols desc 0 p hp
    rw [Nat.sub_zero] at hb hc hd
    rw [hgetD p.2]
    cases hlb : lastBind cols desc p.2 with
    | none => rfl
    | some j =>
        exfalso
        obtain ⟨hj1, hj2, hj3⟩ := lastBind_sound cols desc p.2 j hlb
        have hji : j = p.1 :=
          nodup_map_getD_inj desc resolveName dfltField hnodup j p.1 hj1 hb
            (slicesIndex_inj cols _ _ p.2 hj3 hd)
        rw [hji, hc] at hj2
        cases hj2
  have key : ∀ i : Nat, i < desc.length →
      (stFold desc vals N (applyDirect scans vals
          (desc.map fun fd => zeroOf fd.ftype))).getD i (.boxed none)
        = materializeField cols vals (desc.getD i dfltField) := by
    intro i hi
    have hst0get : (desc.map fun fd => zeroOf fd.ftype).getD i (FieldVal.boxed none)
        = zeroOf (desc.getD i dfltField).ftype := by
      rw [getD_map_lt desc _ i _ dfltField hi]
    cases hm : slicesIndex cols (resolveName (desc.getD i dfltField)) with
    | none =>
        have hnostage : ∀ q ∈ N, q.1 ≠ i := by
          intro q hq he
          rw [hN] at hq
          obtain ⟨-, -, -, hd⟩ := stagedOf_mem cols desc 0 q hq
          rw [Nat.sub_zero, he, hm] at hd
          cases hd
        have hfree : ∀ pos : Nat, scans.getD pos .holder ≠ .fieldPtr i := by
          intro pos hp
          obtain ⟨-, -, h3⟩ := hnotPtr i pos hp
          rw [hm] at h3
          cases h3
        rw [stFold_getD_untouched desc vals N _ i _ hnostage,
          applyDirect_getD_untouched scans vals _ i _ hfree, hst0get]
        rw [materializeField_unmatched cols vals _ hm]
    | some idx =>
        cases hnull : isNullableType (desc.getD i dfltField).ftype with
        | true =>
            have hnostage : ∀ q ∈ N, q.1 ≠ i := by
              intro q hq he
              rw [hN] at hq
              obtain ⟨-, -, hc, -⟩ := stagedOf_mem cols desc 0 q hq
              rw [Nat.sub_zero, he, hnull] at hc
              cases hc
            have hlbne := lastBind_complete cols desc idx i hi hnull hm
            cases hlb : lastBind cols desc idx with
            | none => exact absurd hlb hlbne
            | some j =>
                obtain ⟨hj1, hj2, hj3⟩ := lastBind_sound cols desc idx j hlb
                have hji : j = i :=
                  nodup_map_getD_inj desc resolveName dfltField hnodup j i hj1 hi
                    (slicesIndex_inj cols _ _ idx hj3 hm)
                have hbound : scans.getD idx .holder = .fieldPtr i := by
                  rw [hgetD idx]
                  simp [hlb, hji]
                have hunique : ∀ pos : Nat, pos ≠ idx →
                    scans.getD pos .holder ≠ .fieldPtr i := by
                  intro pos hp hcontra
                  obtain ⟨-, -, h3⟩ := hnotPtr i pos hcontra
                  rw [hm] at h3
                  exact hp (Option.some.inj h3).symm
                rw [stFold_getD_untouched desc vals N _ i _ hnostage]
                rw [applyDirect_getD_bound scans vals _ i idx _ hbound hunique
                  (by rw [hslen, hlen]) (by rw [hslen]; exact slicesIndex_lt cols _ idx hm)
                  (by simpa using hi)]
                rw [materializeField_nullable cols vals _ idx hm hnull]
        | false =>
            obtain ⟨k, hk⟩ := not_nullable_plain _ hnull
            have hmem : (i, idx) ∈ N := by
              rw [hN]
              have h := stagedOf_mem_intro cols desc 0 i idx hi hnull hm
              simpa using h
            have hndN : (N.map Prod.fst).Nodup := by
              rw [hN]
              exact stagedOf_firsts_nodup cols desc 0
            obtain ⟨n1, n2, hsplit, h1, h2⟩ := mem_firsts_nodup_split (i, idx) N hmem hndN
            have hfree : ∀ pos : Nat, scans.getD pos .holder ≠ .fieldPtr i := by
              intro pos hp
              obtain ⟨-, h2b, -⟩ := hnotPtr i pos hp
              rw [hnull] at h2b
              cases h2b
            have hADlen : i < (applyDirect scans vals
                (desc.map fun fd => zeroOf fd.ftype)).length := by
              rw [applyDirect_length]
              simpa using hi
            rw [hsplit, stFold_getD_once desc vals (i, idx) n1 n2 _ _ h1 h2 hADlen]
            rw [applyDirect_getD_untouched scans vals _ i _ hfree, hst0get]
            exact stagedUpd_plain_eq_materialize cols vals (desc.getD i dfltField) idx k hm hk
  have hunfold : scanStruct desc cols (.ok vals)
      = applyStaged desc scans vals N
          (applyDirect scans vals (desc.map fun fd => zeroOf fd.ftype)) := by
    simp only [scanStruct, hbind]
  rw [hunfold, applyStaged_eq_stFold desc scans vals N _ hholderN]
  congr 1
  apply list_ext_getD (FieldVal.boxed none)
  · rw [stFold_length, applyDirect_length]
    simp
  · intro i hi
    have hi2 : i < desc.length := by
      rw [stFold_length, applyDirect_length] at hi
      simpa using hi
    rw [key i hi2, getD_map_lt desc _ i _ dfltField hi2]

/-- Witness for `scanStruct_characterization`: a three-field record with one
unmatched field against a two-column row. -/
theorem scanStruct_characterization_witness :
    scanStruct
        [ { name := "Id", jsonTag := "id", ftype := .plain .kInt },
          { name := "Name", jsonTag := "name", ftype := .plain .kString },
          { name := "Missing", jsonTag := "zz", ftype := .plain .kInt } ]
        ["id", "name"] (.ok [.vInt64 7, .vBytes [104, 105]])
      = .ok [.direct (.vInt 7), .direct (.vString "hi"), .direct (.vInt 0)] := by
  rw [scanStruct_characterization
    [ { name := "Id", jsonTag := "id", ftype := .plain .kInt },
      { name := "Name", jsonTag := "name", ftype := .plain .kString },
      { name := "Missing", jsonTag := "zz", ftype := .plain .kInt } ]
    ["id", "name"] [.vInt64 7, .vBytes [104, 105]] (by decide) (by decide)]
  decide

end GoDB
